import Mathlib

/-!
Verification of the diff/patch machinery of `_DevOpsClient`
(`src/gpt_review/repositories/devops.py`) against its specification.

The Python functions are embedded shallowly:

* `needed`            — `_DevOpsClient._calculate_minimum_change_needed`
* `patchLoop`/`createPatchOps`/`createPatchList`
                      — `_DevOpsClient._create_patch_list`
* `condenseStep`/`getCondensedPatch`
                      — `_DevOpsClient._get_condensed_patch`
* `getSelection`      — `_DevOpsClient._get_selection`
* `getGitChange`/`getChange`/`getPatches`
                      — `_DevOpsClient._get_git_change` / `_get_change` /
                        `get_patches`, with the Azure content reads abstracted
                        into an explicit reader function.

Machine integers do not occur (Python ints are unbounded); line numbers are
modelled as `Int` because Python subtraction of line numbers may be negative.
-/

namespace GptReview

/-- `MIN_CONTEXT_LINES = 5` from devops.py (as `Int`: it is compared against
differences of Python line numbers, which may be negative). -/
def MIN_CONTEXT_LINES : Int := 5

/-- `SURROUNDING_CONTEXT = 5` from devops.py. -/
def SURROUNDING_CONTEXT : Nat := 5

/-- Split a character list at every newline character. -/
def splitNl : List Char → List (List Char)
  | [] => [[]]
  | c :: rest =>
    match splitNl rest with
    | [] => [[c]]
    | h :: t => if c = '\n' then [] :: h :: t else (c :: h) :: t

/-- Model of Python `str.splitlines()` restricted to strings whose only line
terminator is `"\n"`: split on newlines, dropping the trailing empty piece a
final newline would produce; the empty string has no lines. -/
def splitlines (s : String) : List String :=
  if s = "" then []
  else
    let parts := (splitNl s.data).map String.mk
    if parts.getLast? = some "" then parts.dropLast else parts

/-- Inner recursion (on the column index) for one row of the
`_calculate_minimum_change_needed` table: `prev` is row `i`, the function
computes row `i+1`.  Entry `j+1` of row `i+1` is
`if left[i] == right[j] then prev j else 1 + min(prev (j+1), cur j, prev j)`,
exactly the Python update
`changes[i][j] = changes[i-1][j-1]` / `1 + min(changes[i-1][j], changes[i][j-1], changes[i-1][j-1])`. -/
def neededRowAux (left right : List String) (prev : Nat → Nat) (i : Nat) : Nat → Nat
  | 0 => 0
  | j + 1 =>
    if left[i]? = right[j]? then prev j
    else 1 + min (prev (j + 1)) (min (neededRowAux left right prev i j) (prev j))

/-- `needed left right i j` is `changes[i][j]` of
`_DevOpsClient._calculate_minimum_change_needed(left, right)`: zero on the
first row and column, and filled by the update documented at `neededRowAux`. -/
def needed (left right : List String) : Nat → Nat → Nat
  | 0, _ => 0
  | i + 1, j => neededRowAux left right (fun j2 => needed left right i j2) i j

/-- A patch operation: an unchanged line, a deleted left line, or an inserted
right line.  `_create_patch_list` serializes these as the bare line,
`"- " + line` and `"+ " + line` respectively. -/
inductive Op where
  | equal (s : String)
  | delete (s : String)
  | insert (s : String)
deriving DecidableEq, Repr

/-- Serialization of one operation as the Python code appends it to `patch`. -/
def render : Op → String
  | .equal s => s
  | .delete s => "- " ++ s
  | .insert s => "+ " ++ s

/-- The main `while line < len(left) and row < len(right)` loop of
`_create_patch_list`, followed by the two tail loops that delete the rest of
`left` and insert the rest of `right`.  `line` and `row` are the Python
1-based cursors.  `fuel` is a structural bound on the number of iterations;
every iteration increases `line + row`, so any fuel above
`len left + len right` is enough (see `createPatchOps`). -/
def patchLoop (left right : List String) : Nat → Nat → Nat → List Op
  | 0, _, _ => []
  | fuel + 1, line, row =>
    if line < left.length ∧ row < right.length then
      if needed left right line row = needed left right (line - 1) (row - 1) then
        Op.equal (left.getD (line - 1) "") :: patchLoop left right fuel (line + 1) (row + 1)
      else if needed left right (line - 1) row < needed left right line (row - 1) then
        Op.delete (left.getD (line - 1) "") :: patchLoop left right fuel (line + 1) row
      else
        Op.insert (right.getD (row - 1) "") :: patchLoop left right fuel line (row + 1)
    else
      ((left.drop (line - 1)).map Op.delete) ++ ((right.drop (row - 1)).map Op.insert)

/-- The operation sequence built by `_create_patch_list(left, right, …)`
before serialization, condensing and insertion of the file-path header:
the loop of `patchLoop` started at `line = row = 1`. -/
def createPatchOps (left right : List String) : List Op :=
  patchLoop left right (left.length + right.length + 1) 1 1

/-- State of the `_get_condensed_patch` loop: the `buffer` and `result` lists
and the `trailing_context` counter. -/
structure CondenseState where
  buffer : List String
  result : List String
  trailing : Nat
deriving DecidableEq, Repr

/-- Python `l[-n:]` for `n > 0`: the last `n` elements (all of them when the
list is shorter). -/
def lastN (n : Nat) (l : List String) : List String :=
  l.drop (l.length - n)

/-- Python `line.startswith(c)` for a single-character prefix `c`: the test
holds exactly when the line is non-empty and its first character is `c`. -/
def startsWithChar (l : String) (c : Char) : Bool :=
  match l.data with
  | [] => false
  | d :: _ => d = c

/-- One iteration of the `for line in patch` loop of `_get_condensed_patch`:
a line starting with `"+"` or `"-"` flushes the last `SURROUNDING_CONTEXT`
buffered lines, is emitted, and resets the trailing counter; otherwise the
line is emitted while trailing context remains, else buffered. -/
def condenseStep (st : CondenseState) (line : String) : CondenseState :=
  if startsWithChar line '+' || startsWithChar line '-' then
    ⟨[], st.result ++ lastN SURROUNDING_CONTEXT st.buffer ++ [line], SURROUNDING_CONTEXT⟩
  else if st.trailing > 0 then
    ⟨st.buffer, st.result ++ [line], st.trailing - 1⟩
  else
    ⟨st.buffer ++ [line], st.result, st.trailing⟩

/-- `_DevOpsClient._get_condensed_patch`: fold the loop body over the patch
starting from empty buffer, empty result and zero trailing context, and
return the `result` list (the final buffer is discarded). -/
def getCondensedPatch (patch : List String) : List String :=
  (patch.foldl condenseStep ⟨[], [], 0⟩).result

/-- `_DevOpsClient._create_patch_list(left, right, file_path, condensed)`:
serialize the operations, optionally condense, and prepend the file path. -/
def createPatchList (left right : List String) (filePath : String)
    (condensed : Bool) : List String :=
  let patch := (createPatchOps left right).map render
  let patch := if condensed then getCondensedPatch patch else patch
  filePath :: patch

/-- `_DevOpsClient._create_patch`: split both contents into lines (a falsy —
empty — content gives no lines) and build the patch list. -/
def createPatch (originalContent changedContent : String) (filePath : String)
    (condensed : Bool) : List String :=
  let left := if originalContent = "" then [] else splitlines originalContent
  let right := if changedContent = "" then [] else splitlines changedContent
  createPatchList left right filePath condensed

/-- `_DevOpsClient._get_selection(file_contents, line_start, line_end)` on the
already-split line list; errors model the raised `ValueError`. -/
def getSelection (lines : List String) (lineStart lineEnd : Int) :
    Except String (List String) :=
  if lineEnd - lineStart < MIN_CONTEXT_LINES then
    .ok lines
  else if lineStart < 1 ∨ (lines.length : Int) < lineStart
      ∨ lineEnd < 1 ∨ (lines.length : Int) < lineEnd then
    .error ("Selection region lineStart = " ++ toString lineStart
      ++ ", lineEnd = " ++ toString lineEnd
      ++ ", lines length = " ++ toString lines.length)
  else if lineStart = lineEnd then
    .ok [lines.getD (lineStart.toNat - 1) ""]
  else
    .ok ((lines.take lineEnd.toNat).drop (lineStart.toNat - 1))

/-- Failures of `read_all_text`: `serviceError` is `AzureDevOpsServiceError`
(file not found — the only class the `try`/`except` in `_get_git_change`
catches); `otherError` stands for any other raised exception. -/
inductive AzureError where
  | serviceError
  | otherError
deriving DecidableEq, Repr

/-- A content provider: `read path commitId` models
`self.read_all_text(path, commit_id=commitId, check_if_exists=True)`
(`none` = the default, base, version). -/
def Reader : Type := String → Option String → Except AzureError String

/-- `_DevOpsClient._get_git_change(file_path, source_commit_head, condensed)`:
the base-version read has its `AzureDevOpsServiceError` caught and replaced by
empty content; any other error there, and every error of the source-commit
read, propagates. -/
def getGitChange (read : Reader) (filePath sourceCommitHead : String)
    (condensed : Bool) : Except AzureError (List String) :=
  match read filePath none with
  | .error .otherError => .error .otherError
  | .error .serviceError =>
    match read filePath (some sourceCommitHead) with
    | .error e => .error e
    | .ok changedContent => .ok (createPatch "" changedContent filePath condensed)
  | .ok originalContent =>
    match read filePath (some sourceCommitHead) with
    | .error e => .error e
    | .ok changedContent =>
      .ok (createPatch originalContent changedContent filePath condensed)

/-- `_DevOpsClient._get_change`: the patch lines joined with newlines. -/
def getChange (read : Reader) (filePath sourceCommitHead : String)
    (condensed : Bool) : Except AzureError String :=
  match getGitChange read filePath sourceCommitHead condensed with
  | .error e => .error e
  | .ok lines => .ok (String.intercalate "\n" lines)

/-- `_DevOpsClient.get_patches` on the changed paths: the Python list
comprehension evaluates `_get_change` per path in order, and the first raised
exception propagates out of the whole comprehension. -/
def getPatches (read : Reader) (paths : List String) (sourceCommitHead : String)
    (condensed : Bool) : Except AzureError (List String) :=
  match paths with
  | [] => .ok []
  | p :: rest =>
    match getChange read p sourceCommitHead condensed with
    | .error e => .error e
    | .ok patch =>
      match getPatches read rest sourceCommitHead condensed with
      | .error e => .error e
      | .ok patches => .ok (patch :: patches)

/-- The left-hand replay of a patch: the lines of its `Equal` and `Delete`
operations, in order. -/
def replayLeft (ops : List Op) : List String :=
  ops.filterMap fun o =>
    match o with
    | .equal s => some s
    | .delete s => some s
    | .insert _ => none

/-- The right-hand replay of a patch: the lines of its `Equal` and `Insert`
operations, in order. -/
def replayRight (ops : List Op) : List String :=
  ops.filterMap fun o =>
    match o with
    | .equal s => some s
    | .insert s => some s
    | .delete _ => none

/-- A content provider for which the base-version read reports the file
missing (`AzureDevOpsServiceError`) while the source-commit read succeeds:
the situation of a file newly added by the pull request. -/
def readerMissingBase : Reader := fun _ commit =>
  match commit with
  | none => .error .serviceError
  | some _ => .ok "x"

/-- A content provider for which the base-version read succeeds while the
source-commit read reports the file missing: a file deleted by the pull
request. -/
def readerMissingSource : Reader := fun _ commit =>
  match commit with
  | none => .ok "x"
  | some _ => .error .serviceError

/-- A content provider that fails (with an error the code never catches) on
the path `"bad"` and succeeds everywhere else. -/
def readerBadPath : Reader := fun path _ =>
  if path = "bad" then .error .otherError else .ok "x"

/-- The invariant preserved by `condenseStep` that drives the idempotence of
`_get_condensed_patch`: re-condensing the `result` accumulated so far leaves
it unchanged and reconstructs the trailing counter; the buffer is empty while
trailing context remains; and only non-change lines are ever buffered. -/
def CondenseInv (st : CondenseState) : Prop :=
  List.foldl condenseStep ⟨[], [], 0⟩ st.result = ⟨[], st.result, st.trailing⟩ ∧
  (0 < st.trailing → st.buffer = []) ∧
  (∀ l ∈ st.buffer, (startsWithChar l '+' || startsWithChar l '-') = false)

/-! ## Helper lemmas -/

theorem length_lastN (n : Nat) (l : List String) : (lastN n l).length ≤ n := by
  simp only [lastN, List.length_drop]
  omega

theorem lastN_of_le (n : Nat) (l : List String) (h : l.length ≤ n) :
    lastN n l = l := by
  have h0 : l.length - n = 0 := by omega
  simp [lastN, h0]

theorem mem_of_mem_lastN {n : Nat} {l : List String} {x : String}
    (h : x ∈ lastN n l) : x ∈ l :=
  List.mem_of_mem_drop h

/-- Folding a run of non-change lines from a state with exhausted trailing
context only appends them to the buffer. -/
theorem foldl_condenseStep_context :
    ∀ (ls b r : List String),
      (∀ l ∈ ls, (startsWithChar l '+' || startsWithChar l '-') = false) →
      List.foldl condenseStep ⟨b, r, 0⟩ ls = ⟨b ++ ls, r, 0⟩ := by
  intro ls
  induction ls with
  | nil => intro b r _; simp
  | cons x xs ih =>
    intro b r h
    have hx : (startsWithChar x '+' || startsWithChar x '-') = false := h x (by simp)
    have hxs : ∀ l ∈ xs, (startsWithChar l '+' || startsWithChar l '-') = false :=
      fun l hl => h l (by simp [hl])
    have hstep : condenseStep ⟨b, r, 0⟩ x = ⟨b ++ [x], r, 0⟩ := by
      simp [condenseStep, hx]
    simp only [List.foldl_cons, hstep, ih (b ++ [x]) r hxs, List.append_assoc,
      List.singleton_append]

theorem condenseStep_preserves_inv (st : CondenseState) (l : String)
    (h : CondenseInv st) : CondenseInv (condenseStep st l) := by
  obtain ⟨h1, h2, h3⟩ := h
  by_cases hch : (startsWithChar l '+' || startsWithChar l '-') = true
  · have hstep : condenseStep st l =
        ⟨[], st.result ++ lastN SURROUNDING_CONTEXT st.buffer ++ [l],
          SURROUNDING_CONTEXT⟩ := by
      simp [condenseStep, hch]
    rw [hstep]
    refine ⟨?_, fun _ => rfl, by simp⟩
    dsimp only
    rcases Nat.eq_zero_or_pos st.trailing with ht | ht
    · have hctx : ∀ x ∈ lastN SURROUNDING_CONTEXT st.buffer,
          (startsWithChar x '+' || startsWithChar x '-') = false :=
        fun x hx => h3 x (mem_of_mem_lastN hx)
      have hlast : lastN SURROUNDING_CONTEXT
          (lastN SURROUNDING_CONTEXT st.buffer) =
          lastN SURROUNDING_CONTEXT st.buffer :=
        lastN_of_le _ _ (length_lastN _ _)
      rw [ht] at h1
      rw [List.foldl_append, List.foldl_append, h1,
        foldl_condenseStep_context _ _ _ hctx]
      simp [condenseStep, hch, hlast]
    · have hb : st.buffer = [] := h2 ht
      rw [List.foldl_append, List.foldl_append, h1]
      simp [hb, lastN, condenseStep, hch]
  · have hch' : (startsWithChar l '+' || startsWithChar l '-') = false := by
      simpa using hch
    rcases Nat.eq_zero_or_pos st.trailing with ht | ht
    · have hstep : condenseStep st l = ⟨st.buffer ++ [l], st.result, 0⟩ := by
        simp [condenseStep, hch', ht]
      rw [hstep]
      rw [ht] at h1
      refine ⟨h1, ?_, ?_⟩
      · dsimp only
        intro hcon
        exact absurd hcon (by omega)
      · dsimp only
        intro x hx
        rcases List.mem_append.mp hx with hx | hx
        · exact h3 x hx
        · simp at hx
          subst hx
          exact hch'
    · have hb : st.buffer = [] := h2 ht
      have hstep : condenseStep st l = ⟨st.buffer, st.result ++ [l], st.trailing - 1⟩ := by
        simp [condenseStep, hch', ht]
      rw [hstep]
      refine ⟨?_, fun _ => hb, by simp [hb]⟩
      dsimp only
      rw [List.foldl_append, h1]
      simp [condenseStep, hch', ht]

theorem foldl_condenseStep_inv (P : List String) :
    ∀ st, CondenseInv st → CondenseInv (List.foldl condenseStep st P) := by
  induction P with
  | nil => intro st h; simpa using h
  | cons x xs ih =>
    intro st h
    simpa using ih _ (condenseStep_preserves_inv st x h)

/-- The change matrix is zero on the whole diagonal when both sides are the
same list. -/
theorem needed_diag (L : List String) : ∀ k, needed L L k k = 0 := by
  intro k
  induction k with
  | zero => rfl
  | succ k ih => simp [needed, neededRowAux, ih]

/-- Replaying the `Equal` and `Delete` lines of the tail loops of
`_create_patch_list` gives exactly the deleted lines. -/
theorem replayLeft_tails (ls rs : List String) :
    replayLeft (ls.map Op.delete ++ rs.map Op.insert) = ls := by
  simp only [replayLeft, List.filterMap_append, List.filterMap_map]
  have hdel : ∀ t : List String,
      t.filterMap ((fun o =>
        match o with
        | .equal s => some s
        | .delete s => some s
        | .insert _ => none) ∘ Op.delete) = t := by
    intro t
    induction t with
    | nil => rfl
    | cons x xs ih => simpa [List.filterMap_cons] using ih
  have hins : ∀ t : List String,
      t.filterMap ((fun o =>
        match o with
        | .equal s => some s
        | .delete s => some s
        | .insert _ => none) ∘ Op.insert) = ([] : List String) := by
    intro t
    induction t with
    | nil => rfl
    | cons x xs ih => simp [List.filterMap_cons, ih]
  rw [hdel, hins, List.append_nil]

theorem replayLeft_cons_equal (s : String) (ops : List Op) :
    replayLeft (Op.equal s :: ops) = s :: replayLeft ops := rfl

theorem replayLeft_cons_delete (s : String) (ops : List Op) :
    replayLeft (Op.delete s :: ops) = s :: replayLeft ops := rfl

theorem replayLeft_cons_insert (s : String) (ops : List Op) :
    replayLeft (Op.insert s :: ops) = replayLeft ops := rfl

/-- The left replay of the patch loop from cursors `(line, row)` is the part
of `left` not yet consumed, for any sufficient fuel. -/
theorem replayLeft_patchLoop (left right : List String) :
    ∀ (fuel line row : Nat), 1 ≤ line → 1 ≤ row →
    left.length - line + (right.length - row) < fuel →
    replayLeft (patchLoop left right fuel line row) = left.drop (line - 1) := by
  intro fuel
  induction fuel with
  | zero => intro line row _ _ hm; omega
  | succ fuel ih =>
    intro line row hl hr hm
    rw [patchLoop]
    by_cases hc : line < left.length ∧ row < right.length
    · rw [if_pos hc]
      have h1 : line - 1 < left.length := by omega
      have hline : line - 1 + 1 = line := by omega
      by_cases he : needed left right line row = needed left right (line - 1) (row - 1)
      · rw [if_pos he, replayLeft_cons_equal,
          ih (line + 1) (row + 1) (by omega) (by omega) (by omega)]
        rw [List.drop_eq_getElem_cons h1, List.getD_eq_getElem left "" h1, hline]
        simp
      · rw [if_neg he]
        by_cases hd : needed left right (line - 1) row < needed left right line (row - 1)
        · rw [if_pos hd, replayLeft_cons_delete,
            ih (line + 1) row (by omega) hr (by omega)]
          rw [List.drop_eq_getElem_cons h1, List.getD_eq_getElem left "" h1, hline]
          simp
        · rw [if_neg hd, replayLeft_cons_insert,
            ih line (row + 1) hl (by omega) (by omega)]
    · rw [if_neg hc]
      exact replayLeft_tails _ _

/-- Structure of the patch loop when both sides are the same list `L` and
both cursors agree: every line before the last is an `Equal`, and the loop's
tails turn the final line into a `Delete` followed by an `Insert`. -/
theorem patchLoop_self (L : List String) :
    ∀ (fuel k : Nat), 1 ≤ k → (k ≤ L.length ∨ L.length = 0) →
    L.length - k < fuel →
    patchLoop L L fuel k k =
      ((L.drop (k - 1)).dropLast).map Op.equal
        ++ ((L.drop (L.length - 1)).map Op.delete
          ++ (L.drop (L.length - 1)).map Op.insert) := by
  intro fuel
  induction fuel with
  | zero => intro k _ _ hm; omega
  | succ fuel ih =>
    intro k hk hor hm
    rw [patchLoop]
    by_cases hc : k < L.length ∧ k < L.length
    · rw [if_pos hc]
      rw [needed_diag, needed_diag, if_pos rfl]
      rw [ih (k + 1) (by omega) (Or.inl (by omega)) (by omega)]
      have h1 : k - 1 < L.length := by omega
      have hk1 : k - 1 + 1 = k := by omega
      have hdropne : L.drop k ≠ [] := by
        intro hnil
        have hlen := List.length_drop k (α := String) (l := L)
        rw [hnil] at hlen
        simp at hlen
        omega
      rw [List.drop_eq_getElem_cons h1, hk1, List.dropLast_cons_of_ne_nil hdropne,
        List.map_cons, List.getD_eq_getElem L "" h1]
      simp
    · rw [if_neg hc]
      have hkl : L.length ≤ k := by
        rcases Nat.lt_or_ge k L.length with hlt | hge
        · exact absurd ⟨hlt, hlt⟩ hc
        · exact hge
      rcases hor with hor | hor
      · have hkeq : k = L.length := by omega
        subst hkeq
        have hlen1 : (L.drop (L.length - 1)).length = 1 := by
          rw [List.length_drop]
          omega
        have hdl : (L.drop (L.length - 1)).dropLast = [] := by
          apply List.length_eq_zero.mp
          rw [List.length_dropLast, hlen1]
        rw [hdl]
        simp
      · have hL : L = [] := List.length_eq_zero.mp hor
        subst hL
        simp

/-! ## Claim theorems -/

/-- C1 (amended): for every pair of line sequences `(left, right)`,
concatenating, in order, the lines of all `Equal` and `Delete` operations of
the patch produced by `_create_patch_list` (the file-path header excluded)
reproduces `left` exactly.  The original claim's other half — that the
`Equal` and `Insert` lines reproduce `right` — is refuted by
`replayRight_not_right`. -/
theorem replayLeft_createPatchOps (left right : List String) :
    replayLeft (createPatchOps left right) = left := by
  have h := replayLeft_patchLoop left right (left.length + right.length + 1) 1 1
    (by omega) (by omega) (by omega)
  simpa using h

/-- C1 counterexample: for `left = ["a","x","z"]`, `right = ["x","y","w"]`
the `Equal` branch of `_create_patch_list` fires on the unequal pair
`("x", "y")` (both matrix entries are 1), so replaying the `Equal` and
`Insert` lines yields `["x","x","w"]`, not `right`. -/
theorem replayRight_not_right :
    replayRight (createPatchOps ["a", "x", "z"] ["x", "y", "w"]) ≠
      ["x", "y", "w"] := by decide

/-- C2: at `left = ["a"]`, `right = []` the patch consists of one `Delete`
operation — one `Delete`+`Insert` operation in total, and the minimal
insert/delete edit distance is also 1 — while
`_calculate_minimum_change_needed(left, right)[1][0]` is 0 because the code
zeroes the whole first row and column of the table.  The matrix value
therefore equals neither the patch's `Delete`+`Insert` count nor the edit
distance, contradicting the function's own documented purpose. -/
theorem patch_vs_matrix_mismatch :
    createPatchOps ["a"] [] = [Op.delete "a"] ∧ needed ["a"] [] 1 0 = 0 := by
  decide

/-- C3: on the concrete inputs `left = ["one","two","three"]`,
`right = ["one","TWO","three"]` the code produces the operation sequence
`[Equal one, Insert TWO, Delete two, Delete three, Insert three]` — not the
claimed `[Equal one, Delete two, Insert TWO, Equal three]` — and the matrix
value `[3][3]` is 1, not the claimed minimal edit distance 2. -/
theorem concrete_scenario_actual :
    createPatchOps ["one", "two", "three"] ["one", "TWO", "three"] =
      [Op.equal "one", Op.insert "TWO", Op.delete "two", Op.delete "three",
        Op.insert "three"] ∧
    needed ["one", "two", "three"] ["one", "TWO", "three"] 3 3 = 1 := by
  decide

/-- C5: `_get_condensed_patch` (with its window fixed at
`SURROUNDING_CONTEXT = 5`) is idempotent: condensing an already-condensed
patch produces the same result, for every list of patch lines. -/
theorem getCondensedPatch_idempotent (P : List String) :
    getCondensedPatch (getCondensedPatch P) = getCondensedPatch P := by
  have h := foldl_condenseStep_inv P ⟨[], [], 0⟩ ⟨rfl, fun _ => rfl, by simp⟩
  unfold getCondensedPatch
  rw [h.1]

/-- C4 (amended): building a patch from `(L, L)` with a non-empty `L` yields
`Equal` operations for every line but the last, followed by a `Delete` and an
`Insert` of the last line (so the patch is *not* all-`Equal`); and applying
`_get_condensed_patch` to any sequence of lines none of which begins with
`'+'` or `'-'` — in particular to the serialization of an all-`Equal`
operation sequence — yields the empty sequence. -/
theorem createPatchOps_self_structure (L lines : List String) (_hL : L ≠ [])
    (hctx : ∀ l ∈ lines, (startsWithChar l '+' || startsWithChar l '-') = false) :
    createPatchOps L L =
      (L.dropLast.map Op.equal)
        ++ ((L.drop (L.length - 1)).map Op.delete
          ++ (L.drop (L.length - 1)).map Op.insert) ∧
    getCondensedPatch lines = [] := by
  constructor
  · have h := patchLoop_self L (L.length + L.length + 1) 1 (by omega)
      (by omega) (by omega)
    simpa using h
  · rw [getCondensedPatch, foldl_condenseStep_context lines [] [] hctx]

/-- C4 witness: the amended statement at `L = ["u","v"]` and the context-only
line list `["ctx"]`. -/
theorem createPatchOps_self_structure_witness :
    createPatchOps ["u", "v"] ["u", "v"] =
      ((["u", "v"] : List String).dropLast.map Op.equal)
        ++ (((["u", "v"] : List String).drop 1).map Op.delete
          ++ ((["u", "v"] : List String).drop 1).map Op.insert) ∧
    getCondensedPatch ["ctx"] = [] :=
  createPatchOps_self_structure ["u", "v"] ["ctx"] (by simp) (by decide)

/-- C4 counterexample: for the non-empty identical sides `L = ["a","b"]` the
patch is `[Equal a, Delete b, Insert b]` — it contains a `Delete` and an
`Insert`, so it is not the all-`Equal` sequence the claim demands. -/
theorem createPatchOps_self_not_all_equal :
    createPatchOps ["a", "b"] ["a", "b"] =
      [Op.equal "a", Op.delete "b", Op.insert "b"] ∧
    createPatchOps ["a", "b"] ["a", "b"] ≠
      (["a", "b"] : List String).map Op.equal := by decide

/-- C6 (amended): `_get_selection` returns the slice `lines[start-1 : end]`
only when `end - start ≥ MIN_CONTEXT_LINES` (that is, when the selection
spans at least six lines) and the range is within bounds; whenever
`end - start < MIN_CONTEXT_LINES` — which includes a selection of exactly
five lines — it returns the side's full line sequence unmodified.  The
original claim's threshold `end - start + 1 ≥ 5` is refuted by
`getSelection_five_line_widened`. -/
theorem getSelection_threshold (lines : List String) (s e : Int) :
    (e - s < MIN_CONTEXT_LINES → getSelection lines s e = .ok lines) ∧
    (MIN_CONTEXT_LINES ≤ e - s → 1 ≤ s → s ≤ (lines.length : Int) →
      1 ≤ e → e ≤ (lines.length : Int) →
      getSelection lines s e = .ok ((lines.take e.toNat).drop (s.toNat - 1))) := by
  constructor
  · intro h
    rw [getSelection, if_pos h]
  · intro h h1 h2 h3 h4
    have h5 : (5 : Int) ≤ e - s := h
    rw [getSelection, if_neg (not_lt.mpr h),
      if_neg (by push_neg; exact ⟨h1, h2, h3, h4⟩),
      if_neg (by omega : ¬s = e)]

/-- C6 witness: a seven-line file with the in-bounds range `(2, 7)` is sliced
to `lines[1:7]`. -/
theorem getSelection_threshold_witness :
    getSelection ["a", "b", "c", "d", "e", "f", "g"] 2 7 =
      Except.ok (((["a", "b", "c", "d", "e", "f", "g"] : List String).take 7).drop 1) :=
  (getSelection_threshold ["a", "b", "c", "d", "e", "f", "g"] 2 7).2
    (by decide) (by decide) (by decide) (by decide) (by decide)

/-- C6 counterexample: on a six-line file the five-line selection `(1, 5)` is
*not* sliced — the code returns the full six lines, while the claim demands
the slice `lines[0:5]`. -/
theorem getSelection_five_line_widened :
    getSelection ["a", "b", "c", "d", "e", "f"] 1 5 =
      Except.ok ["a", "b", "c", "d", "e", "f"] ∧
    (["a", "b", "c", "d", "e", "f"] : List String) ≠
      (["a", "b", "c", "d", "e", "f"] : List String).take 5 :=
  ⟨rfl, by decide⟩

/-- C7 (amended): an out-of-bounds defined range on a non-empty side is
rejected with a `ValueError` only when it reaches the slicing path, i.e. when
`end - start ≥ MIN_CONTEXT_LINES`; narrow out-of-bounds ranges
(`end - start < 5`) are instead answered with the side's full content, as
`getSelection_narrow_oob_ok` shows. -/
theorem getSelection_oob_error (lines : List String) (s e : Int)
    (_hne : lines ≠ []) (h5 : MIN_CONTEXT_LINES ≤ e - s)
    (hoob : s < 1 ∨ (lines.length : Int) < s ∨ e < 1 ∨ (lines.length : Int) < e) :
    ∃ msg, getSelection lines s e = .error msg := by
  refine ⟨"Selection region lineStart = " ++ toString s
    ++ ", lineEnd = " ++ toString e
    ++ ", lines length = " ++ toString lines.length, ?_⟩
  rw [getSelection, if_neg (not_lt.mpr h5), if_pos hoob]

/-- C7 witness: on the one-line file, the range `(1, 6)` (whose end is beyond
the line count) is rejected with an error. -/
theorem getSelection_oob_error_witness :
    ∃ msg, getSelection ["a"] 1 6 = Except.error msg :=
  getSelection_oob_error ["a"] 1 6 (by simp) (by decide) (by decide)

/-- C7 counterexample: the out-of-bounds range `(100, 101)` on the non-empty
three-line file is answered with the full content, not rejected with an
error, because `end - start = 1 < MIN_CONTEXT_LINES` short-circuits the
bounds check. -/
theorem getSelection_narrow_oob_ok :
    getSelection ["a", "b", "c"] 100 101 = Except.ok ["a", "b", "c"] ∧
    ¬∃ msg, getSelection ["a", "b", "c"] 100 101 = Except.error msg := by
  refine ⟨rfl, ?_⟩
  rintro ⟨msg, h⟩
  rw [show getSelection ["a", "b", "c"] 100 101 = Except.ok ["a", "b", "c"]
    from rfl] at h
  exact Except.noConfusion h

/-- C8 (amended): a file reported missing (`AzureDevOpsServiceError`) at the
*base* version is recovered by `_get_git_change` as empty content and a patch
is still produced; but the source-commit read is outside the `try` block, so
a missing file at the source commit propagates as an error instead of being
treated as an empty line sequence — refuting the claim's "at the base commit
or at the source commit alike" (see `getGitChange_missing_source_errors`). -/
theorem getGitChange_notfound_sides (read : Reader) (fp commit : String)
    (c : Bool) :
    (∀ s, read fp none = .error .serviceError → read fp (some commit) = .ok s →
      getGitChange read fp commit c = .ok (createPatch "" s fp c)) ∧
    (∀ orig e, read fp none = .ok orig → read fp (some commit) = .error e →
      getGitChange read fp commit c = .error e) := by
  constructor
  · intro s h1 h2
    rw [getGitChange, h1, h2]
  · intro orig e h1 h2
    rw [getGitChange, h1, h2]

/-- C8 witness: with the provider that reports the file missing at the base
version and returns `"x"` at the source commit, `_get_git_change` produces
the patch of `("", "x")`. -/
theorem getGitChange_notfound_sides_witness :
    getGitChange readerMissingBase "f" "c1" false =
      Except.ok (createPatch "" "x" "f" false) :=
  (getGitChange_notfound_sides readerMissingBase "f" "c1" false).1 "x" rfl rfl

/-- C8 counterexample: with the provider that reports the file missing at the
source commit (a deleted file), `_get_git_change` surfaces the not-found
error instead of producing a patch from an empty right side. -/
theorem getGitChange_missing_source_errors :
    getGitChange readerMissingSource "f" "c1" false =
      Except.error AzureError.serviceError ∧
    ¬∃ p, getGitChange readerMissingSource "f" "c1" false = Except.ok p := by
  refine ⟨rfl, ?_⟩
  rintro ⟨p, h⟩
  rw [show getGitChange readerMissingSource "f" "c1" false =
    Except.error AzureError.serviceError from rfl] at h
  exact Except.noConfusion h

/-- C9 (amended): `get_patches` builds its list comprehension eagerly with no
per-path exception handling, so an uncaught read failure while processing any
one changed path aborts the enumeration for the *whole* change set: the
result is that error and no patch is returned for any path — refuting the
claim that the other paths continue (see
`getPatches_one_failure_no_results`). -/
theorem getPatches_failure_aborts_all (read : Reader) (commit : String)
    (c : Bool) :
    ∀ (paths : List String) (p : String), p ∈ paths →
    (∃ e, getChange read p commit c = .error e) →
    ∃ e, getPatches read paths commit c = .error e := by
  intro paths
  induction paths with
  | nil =>
    intro p hp _
    simp at hp
  | cons q rest ih =>
    intro p hp he
    obtain ⟨e, he⟩ := he
    cases hgc : getChange read q commit c with
    | error e2 => exact ⟨e2, by rw [getPatches, hgc]⟩
    | ok patch =>
      have hpr : p ∈ rest := by
        rcases List.mem_cons.mp hp with h | h
        · rw [h, hgc] at he
          exact Except.noConfusion he
        · exact h
      obtain ⟨e3, he3⟩ := ih p hpr ⟨e, he⟩
      exact ⟨e3, by rw [getPatches, hgc, he3]⟩

/-- C9 witness: the failure on path `"bad"` makes the whole enumeration of
`["bad", "good"]` error out. -/
theorem getPatches_failure_aborts_all_witness :
    ∃ e, getPatches readerBadPath ["bad", "good"] "c1" false = .error e :=
  getPatches_failure_aborts_all readerBadPath "c1" false ["bad", "good"] "bad"
    (by simp) ⟨AzureError.otherError, rfl⟩

/-- C9 counterexample: with a provider failing only on path `"bad"`,
enumerating `["bad", "good"]` returns the error and no patches at all, even
though the patch for `"good"` alone is perfectly producible — the claimed
"patches for the other changed paths are still produced and returned" fails. -/
theorem getPatches_one_failure_no_results :
    getPatches readerBadPath ["bad", "good"] "c1" false =
      Except.error AzureError.otherError ∧
    getPatches readerBadPath ["good"] "c1" false =
      Except.ok ["good\n- x\n+ x"] :=
  ⟨rfl, rfl⟩

/-- C10: `_get_condensed_patch` classifies a line as a change solely by its
first character being `'+'` or `'-'`, while `_create_patch_list` serializes
`Equal` lines unprefixed; hence an `Equal` line whose own text begins with
`'+'` or `'-'` is treated by condensing exactly like a change: it is always
emitted, it flushes the last `SURROUNDING_CONTEXT` buffered context lines
before it, and it resets the trailing-context counter — for every condenser
state. -/
theorem condense_equal_with_change_prefix (s : String) (st : CondenseState)
    (h : (startsWithChar s '+' || startsWithChar s '-') = true) :
    render (Op.equal s) = s ∧
    condenseStep st (render (Op.equal s)) =
      ⟨[], st.result ++ lastN SURROUNDING_CONTEXT st.buffer ++ [s],
        SURROUNDING_CONTEXT⟩ := by
  refine ⟨rfl, ?_⟩
  rw [show render (Op.equal s) = s from rfl, condenseStep, if_pos h]

/-- C10 witness: the unchanged line `"--flag"`, rendered unprefixed, is
treated as a change by the condenser: it flushes the buffered context line
and resets the trailing counter. -/
theorem condense_equal_with_change_prefix_witness :
    render (Op.equal "--flag") = "--flag" ∧
    condenseStep ⟨["ctx1"], ["r1"], 0⟩ (render (Op.equal "--flag")) =
      ⟨[], ["r1"] ++ lastN SURROUNDING_CONTEXT ["ctx1"] ++ ["--flag"],
        SURROUNDING_CONTEXT⟩ :=
  condense_equal_with_change_prefix "--flag" ⟨["ctx1"], ["r1"], 0⟩ (by decide)

end GptReview
